import Mathlib

/-!
Verification of the `rememory` shared-memory set (`src/rememory/sharedSet.py`).

The segment protocol is embedded shallowly: a segment is a named byte buffer
(`SegState`); `writeData` / `readData` mirror `RememorySet._writeData` /
`RememorySet._readData`; the public set operations mirror the corresponding
methods.  The serialization codec (`pickle.dumps` / `pickle.loads`) is external
to the repository, so the protocol is parametrized by a `Codec`; `GoodCodec`
records the structural requirements the spec imposes on it (round-trip,
non-empty encodings, encodings never end in a zero byte — true of pickle, whose
STOP opcode is `0x2e`).  A concrete executable codec (`encSet` / `decSet`)
witnessing `GoodCodec` is provided for concrete evaluations.
-/

/-- A serialization codec: `enc` plays the role of `pickle.dumps`,
`dec` of `pickle.loads` (with `none` for a raised exception). -/
structure Codec where
  enc : Finset ℕ → List ℕ
  dec : List ℕ → Option (Finset ℕ)

/-- The structural requirements the spec places on the external codec:
decode inverts encode, encodings are non-empty, and an encoding never ends
in a zero byte (so zero-padding-strip recovers the payload exactly). -/
def GoodCodec (c : Codec) : Prop :=
  ∀ v : Finset ℕ, c.dec (c.enc v) = some v ∧ c.enc v ≠ [] ∧
    (c.enc v).getLast? ≠ some 0

/-! ### A concrete codec

`encElem`/`encSet`/`parseElems`/`decSet` form one concrete codec satisfying
`GoodCodec`, standing in for pickle in concrete witnesses. -/

/-- Encode one element: `n` twos followed by a separator `1`. -/
def encElem (n : ℕ) : List ℕ :=
  List.replicate n 2 ++ [1]

/-- The elements of a finite set of naturals in ascending order. -/
def sortedElems (s : Finset ℕ) : List ℕ :=
  (List.range (s.sup id + 1)).filter (fun a => a ∈ s)

/-- Encode a set: its elements in ascending order, each via `encElem`,
followed by a stop byte `3`. -/
def encSet (s : Finset ℕ) : List ℕ :=
  ((sortedElems s).map encElem).flatten ++ [3]

/-- Parse a run of element encodings; `c` counts the twos of the chunk in
progress. -/
def parseElems : List ℕ → ℕ → Option (List ℕ)
  | [], 0 => some []
  | [], _ + 1 => none
  | 1 :: rest, c => (parseElems rest 0).map (fun l => c :: l)
  | 2 :: rest, c => parseElems rest (c + 1)
  | _ :: _, _ => none

/-- Decode: require the stop byte `3` at the end, parse the rest. -/
def decSet (bs : List ℕ) : Option (Finset ℕ) :=
  match bs.reverse with
  | 3 :: rest => (parseElems rest.reverse 0).map List.toFinset
  | _ => none

/-- The concrete codec. -/
def natCodec : Codec :=
  { enc := encSet, dec := decSet }

theorem parseElems_replicate (n : ℕ) :
    ∀ rest c, parseElems (List.replicate n 2 ++ rest) c = parseElems rest (c + n) := by
  induction n with
  | zero => intro rest c; simp [List.replicate]
  | succ n ih =>
    intro rest c
    have : List.replicate (n + 1) 2 ++ rest = 2 :: (List.replicate n 2 ++ rest) := by
      simp [List.replicate_succ]
    rw [this]
    show parseElems (List.replicate n 2 ++ rest) (c + 1) = parseElems rest (c + (n + 1))
    rw [ih rest (c + 1)]
    congr 1
    omega

theorem parseElems_join (l : List ℕ) :
    parseElems ((l.map encElem).flatten) 0 = some l := by
  induction l with
  | nil => simp [parseElems]
  | cons a t ih =>
    have h1 : ((a :: t).map encElem).flatten
        = List.replicate a 2 ++ (1 :: (t.map encElem).flatten) := by
      simp [encElem, List.flatten, List.append_assoc]
    rw [h1, parseElems_replicate]
    show (parseElems ((t.map encElem).flatten) 0).map (fun l => (0 + a) :: l) = some (a :: t)
    rw [ih]
    simp

theorem toFinset_sortedElems (s : Finset ℕ) : (sortedElems s).toFinset = s := by
  ext a
  simp only [sortedElems, List.mem_toFinset, List.mem_filter, List.mem_range,
    decide_eq_true_eq]
  constructor
  · exact fun h => h.2
  · intro h
    exact ⟨Nat.lt_succ_of_le (Finset.le_sup (f := id) h), h⟩

theorem decSet_encSet (s : Finset ℕ) : decSet (encSet s) = some s := by
  unfold decSet encSet
  rw [List.reverse_append]
  show (parseElems ((((sortedElems s).map encElem).flatten).reverse.reverse) 0).map
      List.toFinset = some s
  rw [List.reverse_reverse, parseElems_join]
  simp [toFinset_sortedElems]

theorem encSet_ne_nil (s : Finset ℕ) : encSet s ≠ [] := by
  unfold encSet
  simp

theorem encSet_getLast (s : Finset ℕ) : (encSet s).getLast? = some 3 := by
  unfold encSet
  exact List.getLast?_concat _

theorem natCodec_good : GoodCodec natCodec := by
  intro v
  refine ⟨decSet_encSet v, encSet_ne_nil v, ?_⟩
  rw [show natCodec.enc v = encSet v from rfl, encSet_getLast]
  simp

/-! ### Segment state and protocol -/

/-- A shared-memory segment as one handle sees it: its OS name, its
capacity in bytes (`self._shm.size`) and its contents (`self._shm.buf`). -/
structure SegState where
  name : ℕ
  size : ℕ
  data : List ℕ
  deriving DecidableEq

/-- `bytes(buf).rstrip(b"\x00")`: drop trailing zero bytes. -/
def rstripZeros (l : List ℕ) : List ℕ :=
  (l.reverse.dropWhile (fun b => b == 0)).reverse

/-- `RememorySet._readData` (sharedSet.py lines 47-56): strip trailing
zeros; an empty remainder is the empty set; a decode failure is the
empty set. -/
def readData (c : Codec) (st : SegState) : Finset ℕ :=
  let raw := rstripZeros st.data
  if raw = [] then ∅
  else
    match c.dec raw with
    | some v => v
    | none => ∅

/-- `RememorySet._writeData` (sharedSet.py lines 58-70): encode; if the
encoding exceeds the current capacity, re-create the segment under the same
name with capacity `max(len(encoded), size * 2)`; then store the encoding
followed by zero padding to capacity. -/
def writeData (c : Codec) (st : SegState) (v : Finset ℕ) : SegState :=
  let encoded := c.enc v
  if encoded.length > st.size then
    let newSize := max encoded.length (st.size * 2)
    { name := st.name, size := newSize,
      data := encoded ++ List.replicate (newSize - encoded.length) 0 }
  else
    { name := st.name, size := st.size,
      data := encoded ++ List.replicate (st.size - encoded.length) 0 }

theorem dropWhile_replicate_zero_append (k : ℕ) (r : List ℕ) :
    (List.replicate k 0 ++ r).dropWhile (fun b => b == 0)
      = r.dropWhile (fun b => b == 0) := by
  induction k with
  | zero => simp
  | succ k ih =>
    rw [List.replicate_succ, List.cons_append, List.dropWhile_cons]
    simp [ih]

theorem rstripZeros_payload (e : List ℕ) (k : ℕ) (h : e.getLast? ≠ some 0) :
    rstripZeros (e ++ List.replicate k 0) = e := by
  unfold rstripZeros
  rw [List.reverse_append, List.reverse_replicate, dropWhile_replicate_zero_append]
  cases he : e.reverse with
  | nil =>
    have : e = [] := by simpa using congrArg List.reverse he
    simp [this]
  | cons a t =>
    have ha : e.getLast? = some a := by
      rw [← List.head?_reverse, he]
      rfl
    have ha0 : (a == 0) = false := by
      rcases eq_or_ne a 0 with h0 | h0
      · exact absurd (h0 ▸ ha) h
      · simpa using h0
    rw [List.dropWhile_cons, ha0]
    simpa using congrArg List.reverse he.symm

theorem readData_payload (c : Codec) (hc : GoodCodec c) (n sz k : ℕ) (v : Finset ℕ) :
    readData c ⟨n, sz, c.enc v ++ List.replicate k 0⟩ = v := by
  obtain ⟨hdec, hne, hlast⟩ := hc v
  unfold readData
  simp only
  rw [rstripZeros_payload _ _ hlast]
  rw [if_neg hne, hdec]

/-- Write-then-read round trip: reading after `writeData` returns exactly
the written value, in both the fits and the resize branch. -/
theorem readData_writeData (c : Codec) (hc : GoodCodec c) (st : SegState)
    (v : Finset ℕ) : readData c (writeData c st v) = v := by
  unfold writeData
  by_cases h : (c.enc v).length > st.size
  · rw [if_pos h]; exact readData_payload c hc _ _ _ v
  · rw [if_neg h]; exact readData_payload c hc _ _ _ v

/-! ### Public operations (sharedSet.py lines 74-136) -/

/-- Typed errors: the spec's `NotFoundError` (Python `KeyError` from
`set.remove`) and `EmptyError` (Python `KeyError("pop from empty set")`). -/
inductive SetErr where
  | notFound
  | empty
  deriving DecidableEq

namespace RememorySet

/-- `add`: read, insert the item, write back. -/
def add (c : Codec) (st : SegState) (x : ℕ) : SegState :=
  writeData c st (insert x (readData c st))

/-- `remove`: read; `set.remove` raises `KeyError` when the item is absent,
so nothing is written on that path; otherwise write back the erased set. -/
def remove (c : Codec) (st : SegState) (x : ℕ) : SegState × Option SetErr :=
  let data := readData c st
  if x ∈ data then (writeData c st (data.erase x), none)
  else (st, some SetErr.notFound)

/-- `discard`: read, erase the item if present (no error), write back. -/
def discard (c : Codec) (st : SegState) (x : ℕ) : SegState :=
  writeData c st ((readData c st).erase x)

/-- `pop`: read; raise on the empty set, else remove and return an arbitrary
element, modelled by a choice function applied to the decoded set. -/
def pop (c : Codec) (choice : Finset ℕ → ℕ) (st : SegState) :
    SegState × Except SetErr ℕ :=
  let data := readData c st
  if data = ∅ then (st, Except.error SetErr.empty)
  else (writeData c st (data.erase (choice data)), Except.ok (choice data))

/-- `clear`: write the empty set. -/
def clear (c : Codec) (st : SegState) : SegState :=
  writeData c st ∅

/-- `update`: read, union with the other set, write back. -/
def update (c : Codec) (st : SegState) (s : Finset ℕ) : SegState :=
  writeData c st (readData c st ∪ s)

/-- `intersectionUpdate`: read, intersect with the other set, write back. -/
def intersectionUpdate (c : Codec) (st : SegState) (s : Finset ℕ) : SegState :=
  writeData c st (readData c st ∩ s)

/-- `differenceUpdate`: read, subtract the other set, write back. -/
def differenceUpdate (c : Codec) (st : SegState) (s : Finset ℕ) : SegState :=
  writeData c st (readData c st \ s)

/-- `symmetricDifferenceUpdate`: read, keep elements in exactly one of the
two sets, write back. -/
def symmetricDifferenceUpdate (c : Codec) (st : SegState) (s : Finset ℕ) :
    SegState :=
  writeData c st ((readData c st ∪ s) \ (readData c st ∩ s))

end RememorySet

/-! ### Constructor (sharedSet.py lines 31-43)

The environment is an oracle: `att k` is the outcome of the `k`-th attach
attempt (`SharedMemory(name=name)`), `cre k` of the `k`-th create attempt
(`SharedMemory(name=name, create=True, size=size)`).  Indexing the oracles by
call number makes visible which calls the constructor actually performs. -/

/-- Outcome of one attach attempt. -/
inductive AttachOutcome where
  | found (st : SegState)
  | notFound
  deriving DecidableEq

/-- Outcome of one create attempt: success, `FileExistsError`, or some
other OS failure. -/
inductive CreateOutcome where
  | created
  | alreadyExists
  | osFailure
  deriving DecidableEq

/-- Errors the constructor can propagate. -/
inductive InitErr where
  | fileExists
  | osError
  deriving DecidableEq

/-- `RememorySet.__init__`: try one attach; on `FileNotFoundError`, try one
create (zero-initialized segment of `size` bytes) and write the empty set
into it.  Any create failure propagates; there is no second attach. -/
def rememoryInit (att : ℕ → AttachOutcome) (cre : ℕ → CreateOutcome)
    (c : Codec) (name size : ℕ) : Except InitErr SegState :=
  match att 0 with
  | AttachOutcome.found st => Except.ok st
  | AttachOutcome.notFound =>
    match cre 0 with
    | CreateOutcome.created =>
        Except.ok (writeData c ⟨name, size, List.replicate size 0⟩ ∅)
    | CreateOutcome.alreadyExists => Except.error InitErr.fileExists
    | CreateOutcome.osFailure => Except.error InitErr.osError

/-! ### Lock/read event trace of `__eq__` (sharedSet.py lines 202-211) -/

/-- Mutex and snapshot events, keyed by segment name. -/
inductive LockEvent where
  | acq (n : ℕ)
  | readSnap (n : ℕ)
  | rel (n : ℕ)
  deriving DecidableEq

/-- Whether an event is a snapshot read. -/
def LockEvent.isRead : LockEvent → Bool
  | LockEvent.readSnap _ => true
  | _ => false

/-- The event trace of `__eq__` when the right-hand operand is itself a
`RememorySet`: acquire `self._lock`, read self's snapshot, acquire
`other._lock`, read other's snapshot, then release in reverse order. -/
def eqEvents (self other : ℕ) : List LockEvent :=
  [LockEvent.acq self, LockEvent.readSnap self, LockEvent.acq other,
   LockEvent.readSnap other, LockEvent.rel other, LockEvent.rel self]

/-- The names whose locks a trace acquires, in acquisition order. -/
def acqNames (tr : List LockEvent) : List ℕ :=
  tr.filterMap (fun e =>
    match e with
    | LockEvent.acq n => some n
    | _ => none)

/-- Every lock acquisition in the trace happens before the first
snapshot read. -/
def locksBeforeReads (tr : List LockEvent) : Prop :=
  acqNames (tr.takeWhile (fun e => !(LockEvent.isRead e))) = acqNames tr

instance (tr : List LockEvent) : Decidable (locksBeforeReads tr) :=
  inferInstanceAs (Decidable (_ = _))

/-! ### Segment validity -/

/-- The segment invariant: the live bytes (after padding strip) are empty
(all-zero segment, decoding to the empty set) or decode to exactly one set
value. -/
def ValidSeg (c : Codec) (st : SegState) : Prop :=
  rstripZeros st.data = [] ∨ ∃ v, c.dec (rstripZeros st.data) = some v

theorem validSeg_payload (c : Codec) (hc : GoodCodec c) (n sz k : ℕ)
    (v : Finset ℕ) : ValidSeg c ⟨n, sz, c.enc v ++ List.replicate k 0⟩ := by
  obtain ⟨hdec, _, hlast⟩ := hc v
  right
  refine ⟨v, ?_⟩
  show c.dec (rstripZeros (c.enc v ++ List.replicate k 0)) = some v
  rw [rstripZeros_payload _ _ hlast, hdec]

theorem validSeg_writeData (c : Codec) (hc : GoodCodec c) (st : SegState)
    (v : Finset ℕ) : ValidSeg c (writeData c st v) := by
  unfold writeData
  by_cases h : (c.enc v).length > st.size
  · rw [if_pos h]; exact validSeg_payload c hc _ _ _ v
  · rw [if_neg h]; exact validSeg_payload c hc _ _ _ v

/-- A concrete choice function for `pop`: the least element. -/
def headChoice (s : Finset ℕ) : ℕ :=
  (sortedElems s).headD 0

theorem sortedElems_ne_nil (s : Finset ℕ) (h : s ≠ ∅) : sortedElems s ≠ [] := by
  intro h0
  apply h
  rw [← toFinset_sortedElems s, h0]
  rfl

theorem headChoice_mem (s : Finset ℕ) (h : s ≠ ∅) : headChoice s ∈ s := by
  cases hl : sortedElems s with
  | nil => exact absurd hl (sortedElems_ne_nil s h)
  | cons a t =>
    have ha : headChoice s = a := by unfold headChoice; rw [hl]; rfl
    rw [ha, ← toFinset_sortedElems s, hl]
    simp

/-! ### Claims -/

/-- Claim C1: for every set value whose encoding fits in the current
capacity, `_writeData` stores the encoded bytes followed by zero-padding to
capacity, and `_readData` (strip trailing zeros, decode, empty remainder is
the empty set) returns exactly the written value. -/
theorem c1_fit_write_read_roundtrip (c : Codec) (hc : GoodCodec c)
    (st : SegState) (v : Finset ℕ) (hfit : (c.enc v).length ≤ st.size) :
    writeData c st v =
      ⟨st.name, st.size, c.enc v ++ List.replicate (st.size - (c.enc v).length) 0⟩
    ∧ readData c (writeData c st v) = v
    ∧ (∀ st' : SegState, rstripZeros st'.data = [] → readData c st' = ∅) := by
  refine ⟨?_, readData_writeData c hc st v, ?_⟩
  · unfold writeData
    rw [if_neg (by omega)]
  · intro st' h
    unfold readData
    simp [h]

theorem c1_witness :
    writeData natCodec ⟨5, 16, List.replicate 16 0⟩ {1, 2} =
      ⟨5, 16, natCodec.enc {1, 2} ++
        List.replicate (16 - (natCodec.enc {1, 2}).length) 0⟩
    ∧ readData natCodec (writeData natCodec ⟨5, 16, List.replicate 16 0⟩ {1, 2})
        = {1, 2}
    ∧ (∀ st' : SegState, rstripZeros st'.data = [] → readData natCodec st' = ∅) :=
  c1_fit_write_read_roundtrip natCodec natCodec_good ⟨5, 16, List.replicate 16 0⟩
    {1, 2} (by decide)

/-- Claim C2: when the encoding exceeds the current capacity, `_writeData`
re-creates the segment under the same name with capacity
`max(len(encoded), 2 * oldCapacity)` and a subsequent read returns the
written value — nothing is lost in the resize. -/
theorem c2_grow_same_name_preserves (c : Codec) (hc : GoodCodec c)
    (st : SegState) (v : Finset ℕ) (hbig : (c.enc v).length > st.size) :
    (writeData c st v).size = max (c.enc v).length (st.size * 2)
    ∧ (writeData c st v).name = st.name
    ∧ readData c (writeData c st v) = v := by
  refine ⟨?_, ?_, readData_writeData c hc st v⟩ <;>
    · unfold writeData
      rw [if_pos hbig]

theorem c2_witness :
    (writeData natCodec ⟨7, 2, [0, 0]⟩ {3}).size
      = max (natCodec.enc {3}).length (2 * 2)
    ∧ (writeData natCodec ⟨7, 2, [0, 0]⟩ {3}).name = 7
    ∧ readData natCodec (writeData natCodec ⟨7, 2, [0, 0]⟩ {3}) = {3} :=
  c2_grow_same_name_preserves natCodec natCodec_good ⟨7, 2, [0, 0]⟩ {3} (by decide)

/-- Claim C3: every public operation leaves the segment in a state whose
live bytes decode to exactly one set value or are all zero (the empty set)
— never a half-written encoding.  Mutating operations end in `_writeData`,
whose output always decodes; error paths leave the segment untouched;
read-only operations do not write at all. -/
theorem c3_operations_preserve_validity (c : Codec) (hc : GoodCodec c)
    (st : SegState) (x : ℕ) (s : Finset ℕ) (choice : Finset ℕ → ℕ)
    (hv : ValidSeg c st) :
    ValidSeg c (RememorySet.add c st x)
    ∧ ValidSeg c (RememorySet.discard c st x)
    ∧ ValidSeg c (RememorySet.clear c st)
    ∧ ValidSeg c (RememorySet.update c st s)
    ∧ ValidSeg c (RememorySet.intersectionUpdate c st s)
    ∧ ValidSeg c (RememorySet.differenceUpdate c st s)
    ∧ ValidSeg c (RememorySet.symmetricDifferenceUpdate c st s)
    ∧ ValidSeg c (RememorySet.remove c st x).1
    ∧ ValidSeg c (RememorySet.pop c choice st).1 := by
  refine ⟨validSeg_writeData c hc _ _, validSeg_writeData c hc _ _,
    validSeg_writeData c hc _ _, validSeg_writeData c hc _ _,
    validSeg_writeData c hc _ _, validSeg_writeData c hc _ _,
    validSeg_writeData c hc _ _, ?_, ?_⟩
  · unfold RememorySet.remove
    by_cases h : x ∈ readData c st
    · rw [if_pos h]
      exact validSeg_writeData c hc _ _
    · rw [if_neg h]
      exact hv
  · unfold RememorySet.pop
    by_cases h : readData c st = ∅
    · rw [if_pos h]
      exact hv
    · rw [if_neg h]
      exact validSeg_writeData c hc _ _

theorem c3_witness :
    ValidSeg natCodec (RememorySet.add natCodec ⟨0, 8, List.replicate 8 0⟩ 1)
    ∧ ValidSeg natCodec (RememorySet.discard natCodec ⟨0, 8, List.replicate 8 0⟩ 1)
    ∧ ValidSeg natCodec (RememorySet.clear natCodec ⟨0, 8, List.replicate 8 0⟩)
    ∧ ValidSeg natCodec (RememorySet.update natCodec ⟨0, 8, List.replicate 8 0⟩ {2})
    ∧ ValidSeg natCodec
        (RememorySet.intersectionUpdate natCodec ⟨0, 8, List.replicate 8 0⟩ {2})
    ∧ ValidSeg natCodec
        (RememorySet.differenceUpdate natCodec ⟨0, 8, List.replicate 8 0⟩ {2})
    ∧ ValidSeg natCodec
        (RememorySet.symmetricDifferenceUpdate natCodec ⟨0, 8, List.replicate 8 0⟩ {2})
    ∧ ValidSeg natCodec (RememorySet.remove natCodec ⟨0, 8, List.replicate 8 0⟩ 1).1
    ∧ ValidSeg natCodec (RememorySet.pop natCodec headChoice ⟨0, 8, List.replicate 8 0⟩).1 :=
  c3_operations_preserve_validity natCodec natCodec_good ⟨0, 8, List.replicate 8 0⟩
    1 {2} headChoice (Or.inl (by decide))

/-- Claim C4: `remove` on a present element stores exactly the set with the
element erased; on an absent element it fails with the not-found error and
the segment is untouched — no partial mutation on the error path. -/
theorem c4_remove_semantics (c : Codec) (hc : GoodCodec c) (st : SegState)
    (x : ℕ) :
    (x ∈ readData c st →
      RememorySet.remove c st x = (writeData c st ((readData c st).erase x), none)
      ∧ readData c (RememorySet.remove c st x).1 = (readData c st).erase x)
    ∧ (x ∉ readData c st →
      RememorySet.remove c st x = (st, some SetErr.notFound)) := by
  constructor
  · intro h
    have he : RememorySet.remove c st x
        = (writeData c st ((readData c st).erase x), none) := by
      unfold RememorySet.remove
      rw [if_pos h]
    refine ⟨he, ?_⟩
    rw [he]
    exact readData_writeData c hc st _
  · intro h
    unfold RememorySet.remove
    rw [if_neg h]

theorem c4_witness :
    (RememorySet.remove natCodec ⟨0, 16, encSet {1, 2} ++ List.replicate 10 0⟩ 1
      = (writeData natCodec ⟨0, 16, encSet {1, 2} ++ List.replicate 10 0⟩
          ((readData natCodec ⟨0, 16, encSet {1, 2} ++ List.replicate 10 0⟩).erase 1),
        none)
      ∧ readData natCodec
          (RememorySet.remove natCodec ⟨0, 16, encSet {1, 2} ++ List.replicate 10 0⟩ 1).1
        = (readData natCodec ⟨0, 16, encSet {1, 2} ++ List.replicate 10 0⟩).erase 1)
    ∧ RememorySet.remove natCodec ⟨0, 16, encSet {1, 2} ++ List.replicate 10 0⟩ 5
        = (⟨0, 16, encSet {1, 2} ++ List.replicate 10 0⟩, some SetErr.notFound) :=
  ⟨(c4_remove_semantics natCodec natCodec_good
      ⟨0, 16, encSet {1, 2} ++ List.replicate 10 0⟩ 1).1 (by decide),
   (c4_remove_semantics natCodec natCodec_good
      ⟨0, 16, encSet {1, 2} ++ List.replicate 10 0⟩ 5).2 (by decide)⟩

/-- Claim C5: `pop` on the empty stored set fails with the empty error and
the stored set stays empty; on a non-empty stored set it returns an element
of the set and stores the set with exactly that element removed, so the
size drops by one and the popped element is gone. -/
theorem c5_pop_semantics (c : Codec) (hc : GoodCodec c)
    (choice : Finset ℕ → ℕ) (hch : ∀ s : Finset ℕ, s ≠ ∅ → choice s ∈ s)
    (st : SegState) :
    (readData c st = ∅ →
      RememorySet.pop c choice st = (st, Except.error SetErr.empty)
      ∧ readData c (RememorySet.pop c choice st).1 = ∅)
    ∧ (readData c st ≠ ∅ →
      (RememorySet.pop c choice st).2 = Except.ok (choice (readData c st))
      ∧ choice (readData c st) ∈ readData c st
      ∧ readData c (RememorySet.pop c choice st).1
          = (readData c st).erase (choice (readData c st))
      ∧ (readData c (RememorySet.pop c choice st).1).card
          = (readData c st).card - 1
      ∧ choice (readData c st) ∉ readData c (RememorySet.pop c choice st).1) := by
  constructor
  · intro h
    have he : RememorySet.pop c choice st = (st, Except.error SetErr.empty) := by
      unfold RememorySet.pop
      rw [if_pos h]
    exact ⟨he, by rw [he, h]⟩
  · intro h
    have he : RememorySet.pop c choice st
        = (writeData c st ((readData c st).erase (choice (readData c st))),
           Except.ok (choice (readData c st))) := by
      unfold RememorySet.pop
      rw [if_neg h]
    have hr : readData c (RememorySet.pop c choice st).1
        = (readData c st).erase (choice (readData c st)) := by
      rw [he]
      exact readData_writeData c hc st _
    refine ⟨by rw [he], hch _ h, hr, ?_, ?_⟩
    · rw [hr]
      exact Finset.card_erase_of_mem (hch _ h)
    · rw [hr]
      exact Finset.not_mem_erase _ _

theorem c5_witness :
    (RememorySet.pop natCodec headChoice ⟨0, 8, List.replicate 8 0⟩
        = (⟨0, 8, List.replicate 8 0⟩, Except.error SetErr.empty)
      ∧ readData natCodec
          (RememorySet.pop natCodec headChoice ⟨0, 8, List.replicate 8 0⟩).1 = ∅)
    ∧ ((RememorySet.pop natCodec headChoice
          ⟨0, 16, encSet {1, 2, 3} ++ List.replicate 6 0⟩).2
        = Except.ok (headChoice
            (readData natCodec ⟨0, 16, encSet {1, 2, 3} ++ List.replicate 6 0⟩))
      ∧ headChoice (readData natCodec ⟨0, 16, encSet {1, 2, 3} ++ List.replicate 6 0⟩)
          ∈ readData natCodec ⟨0, 16, encSet {1, 2, 3} ++ List.replicate 6 0⟩
      ∧ readData natCodec (RememorySet.pop natCodec headChoice
            ⟨0, 16, encSet {1, 2, 3} ++ List.replicate 6 0⟩).1
          = (readData natCodec ⟨0, 16, encSet {1, 2, 3} ++ List.replicate 6 0⟩).erase
              (headChoice (readData natCodec ⟨0, 16, encSet {1, 2, 3} ++ List.replicate 6 0⟩))
      ∧ (readData natCodec (RememorySet.pop natCodec headChoice
            ⟨0, 16, encSet {1, 2, 3} ++ List.replicate 6 0⟩).1).card
          = (readData natCodec ⟨0, 16, encSet {1, 2, 3} ++ List.replicate 6 0⟩).card - 1
      ∧ headChoice (readData natCodec ⟨0, 16, encSet {1, 2, 3} ++ List.replicate 6 0⟩)
          ∉ readData natCodec (RememorySet.pop natCodec headChoice
              ⟨0, 16, encSet {1, 2, 3} ++ List.replicate 6 0⟩).1) :=
  ⟨(c5_pop_semantics natCodec natCodec_good headChoice headChoice_mem
      ⟨0, 8, List.replicate 8 0⟩).1 (by decide),
   (c5_pop_semantics natCodec natCodec_good headChoice headChoice_mem
      ⟨0, 16, encSet {1, 2, 3} ++ List.replicate 6 0⟩).2 (by decide)⟩

/-- Claim C6 counterexample: with the first attach reporting not-found, the
create reporting already-exists, and a second attach that would find the
winner's segment, the constructor does not retry: it propagates the
`FileExistsError` instead of succeeding against the winner's segment. -/
theorem c6_counterexample :
    rememoryInit
      (fun k => if k = 0 then AttachOutcome.notFound
                else AttachOutcome.found ⟨0, 8, encSet ∅ ++ List.replicate 7 0⟩)
      (fun _ => CreateOutcome.alreadyExists) natCodec 0 8
      = Except.error InitErr.fileExists
    ∧ rememoryInit
        (fun k => if k = 0 then AttachOutcome.notFound
                  else AttachOutcome.found ⟨0, 8, encSet ∅ ++ List.replicate 7 0⟩)
        (fun _ => CreateOutcome.alreadyExists) natCodec 0 8
        ≠ Except.ok ⟨0, 8, encSet ∅ ++ List.replicate 7 0⟩ := by
  constructor
  · rfl
  · intro h
    exact Except.noConfusion h

/-- Claim C6 (amended): when the initial attach fails with not-found and
the create fails with already-exists, the constructor propagates that
failure without any retry of the attach; a create failure for any other
reason likewise propagates directly (no NameConflictError or SegmentError
wrapping exists). -/
theorem c6_no_retry_propagates (att : ℕ → AttachOutcome)
    (cre : ℕ → CreateOutcome) (c : Codec) (name size : ℕ)
    (hatt : att 0 = AttachOutcome.notFound) :
    (cre 0 = CreateOutcome.alreadyExists →
      rememoryInit att cre c name size = Except.error InitErr.fileExists)
    ∧ (cre 0 = CreateOutcome.osFailure →
      rememoryInit att cre c name size = Except.error InitErr.osError) := by
  constructor <;>
    · intro h
      unfold rememoryInit
      rw [hatt, h]

theorem c6_witness :
    ((fun _ : ℕ => CreateOutcome.alreadyExists) 0 = CreateOutcome.alreadyExists →
      rememoryInit (fun _ => AttachOutcome.notFound)
        (fun _ => CreateOutcome.alreadyExists) natCodec 3 8
        = Except.error InitErr.fileExists)
    ∧ ((fun _ : ℕ => CreateOutcome.alreadyExists) 0 = CreateOutcome.osFailure →
      rememoryInit (fun _ => AttachOutcome.notFound)
        (fun _ => CreateOutcome.alreadyExists) natCodec 3 8
        = Except.error InitErr.osError) :=
  c6_no_retry_propagates (fun _ => AttachOutcome.notFound)
    (fun _ => CreateOutcome.alreadyExists) natCodec 3 8 rfl

/-- Claim C7: when no segment exists, the constructor creates a
zero-initialized one of `initialCapacity` bytes and immediately writes the
empty set's encoding into it, so a subsequent read decodes to the empty
set; the capacity stays `initialCapacity` whenever the empty encoding fits. -/
theorem c7_create_writes_empty (att : ℕ → AttachOutcome)
    (cre : ℕ → CreateOutcome) (c : Codec) (name size : ℕ)
    (hc : GoodCodec c) (hatt : att 0 = AttachOutcome.notFound)
    (hcre : cre 0 = CreateOutcome.created)
    (hfit : (c.enc ∅).length ≤ size) :
    rememoryInit att cre c name size
      = Except.ok (writeData c ⟨name, size, List.replicate size 0⟩ ∅)
    ∧ (writeData c ⟨name, size, List.replicate size 0⟩ ∅).size = size
    ∧ (writeData c ⟨name, size, List.replicate size 0⟩ ∅).name = name
    ∧ readData c (writeData c ⟨name, size, List.replicate size 0⟩ ∅) = ∅ := by
  refine ⟨?_, ?_, ?_, readData_writeData c hc _ _⟩
  · unfold rememoryInit
    rw [hatt, hcre]
  · unfold writeData
    rw [if_neg (by show ¬ (c.enc ∅).length > size; omega)]
  · unfold writeData
    rw [if_neg (by show ¬ (c.enc ∅).length > size; omega)]

theorem c7_witness :
    rememoryInit (fun _ => AttachOutcome.notFound) (fun _ => CreateOutcome.created)
        natCodec 4 8
      = Except.ok (writeData natCodec ⟨4, 8, List.replicate 8 0⟩ ∅)
    ∧ (writeData natCodec ⟨4, 8, List.replicate 8 0⟩ ∅).size = 8
    ∧ (writeData natCodec ⟨4, 8, List.replicate 8 0⟩ ∅).name = 4
    ∧ readData natCodec (writeData natCodec ⟨4, 8, List.replicate 8 0⟩ ∅) = ∅ :=
  c7_create_writes_empty (fun _ => AttachOutcome.notFound)
    (fun _ => CreateOutcome.created) natCodec 4 8 natCodec_good rfl rfl (by decide)

/-- Claim C8: when the zero-stripped bytes fail to decode, `_readData`
does not raise: it returns the empty set, and operations built on it (here
`add`) proceed as if the stored set were empty. -/
theorem c8_decode_failure_empty (c : Codec) (hc : GoodCodec c) (st : SegState)
    (x : ℕ) (hfail : c.dec (rstripZeros st.data) = none) :
    readData c st = ∅ ∧ readData c (RememorySet.add c st x) = {x} := by
  have hr : readData c st = ∅ := by
    unfold readData
    by_cases h0 : rstripZeros st.data = []
    · simp [h0]
    · simp [h0, hfail]
  refine ⟨hr, ?_⟩
  unfold RememorySet.add
  rw [readData_writeData c hc, hr]
  rfl

theorem c8_witness :
    readData natCodec ⟨0, 4, [2, 2, 0, 0]⟩ = ∅
    ∧ readData natCodec (RememorySet.add natCodec ⟨0, 4, [2, 2, 0, 0]⟩ 9) = {9} :=
  c8_decode_failure_empty natCodec natCodec_good ⟨0, 4, [2, 2, 0, 0]⟩ 9 (by decide)

/-- Claim C9 counterexample: for handle names 1 (self) and 0 (other), the
`__eq__` trace neither acquires both locks before the first snapshot read
nor acquires in canonical (sorted) name order `[0, 1]`. -/
theorem c9_counterexample :
    ¬ (locksBeforeReads (eqEvents 1 0) ∧ acqNames (eqEvents 1 0) = [0, 1]) := by
  decide

/-- Claim C9 (amended): `__eq__` always acquires self's lock first and
other's lock second — regardless of how the names order — and reads self's
snapshot before other's lock is acquired, so no trace of it has both locks
held before the first snapshot read.  Two processes comparing the same pair
of sets in opposite directions therefore acquire the two locks in opposite
orders. -/
theorem c9_lock_order_is_self_then_other (self other : ℕ) :
    acqNames (eqEvents self other) = [self, other]
    ∧ (eqEvents self other).take 3
        = [LockEvent.acq self, LockEvent.readSnap self, LockEvent.acq other]
    ∧ ¬ locksBeforeReads (eqEvents self other) := by
  refine ⟨rfl, rfl, ?_⟩
  intro h
  have h1 : acqNames ((eqEvents self other).takeWhile
      (fun e => !(LockEvent.isRead e))) = [self] := rfl
  have h2 : acqNames (eqEvents self other) = [self, other] := rfl
  rw [locksBeforeReads, h1, h2] at h
  simp at h

/-- Claim C10: `discard` of an absent element raises nothing and the
re-encoded stored set is unchanged; `discard` of a present element stores
exactly the set with that element removed. -/
theorem c10_discard_semantics (c : Codec) (hc : GoodCodec c) (st : SegState)
    (x : ℕ) :
    (x ∉ readData c st →
      readData c (RememorySet.discard c st x) = readData c st)
    ∧ (x ∈ readData c st →
      readData c (RememorySet.discard c st x) = (readData c st).erase x) := by
  constructor
  · intro h
    unfold RememorySet.discard
    rw [readData_writeData c hc, Finset.erase_eq_of_not_mem h]
  · intro _
    unfold RememorySet.discard
    exact readData_writeData c hc st _

theorem c10_witness :
    (readData natCodec
        (RememorySet.discard natCodec ⟨0, 16, encSet {1, 2} ++ List.replicate 10 0⟩ 5)
      = readData natCodec ⟨0, 16, encSet {1, 2} ++ List.replicate 10 0⟩)
    ∧ (readData natCodec
        (RememorySet.discard natCodec ⟨0, 16, encSet {1, 2} ++ List.replicate 10 0⟩ 1)
      = (readData natCodec ⟨0, 16, encSet {1, 2} ++ List.replicate 10 0⟩).erase 1) :=
  ⟨(c10_discard_semantics natCodec natCodec_good
      ⟨0, 16, encSet {1, 2} ++ List.replicate 10 0⟩ 5).1 (by decide),
   (c10_discard_semantics natCodec natCodec_good
      ⟨0, 16, encSet {1, 2} ++ List.replicate 10 0⟩ 1).2 (by decide)⟩
